import Mathlib

/-!
Shallow embedding of `source/blender/compositor/intern/COM_ExecutionSystem.cc`
(namespace `blender::compositor`), covering:

* the work-splitting routine `ExecutionSystem::execute_work`,
* the execution-model selection performed in the constructor, and
* the teardown sequence of the destructor.

C `int` arithmetic is modelled with `Int`; the C `/` operator is truncating
division, modelled by `Int.tdiv` (all divisions in the routine happen on
non-negative operands, where `Int.tdiv` agrees with `Int.ediv`).
Stateful behaviour (scheduler submissions, the barrier call, the completion
counter) is modelled as an explicit trace of the observable effects.
-/

namespace BlenderCompositor

/-- The BLI integer rectangle `rcti`: fields `xmin`, `xmax`, `ymin`, `ymax`. -/
structure rcti where
  xmin : Int
  xmax : Int
  ymin : Int
  ymax : Int
deriving DecidableEq, Repr

/-- BLI_rcti_size_y: the height of a rectangle, `ymax - ymin`. -/
def BLI_rcti_size_y (r : rcti) : Int := r.ymax - r.ymin

/-- BLI_rcti_init(rect, xmin, xmax, ymin, ymax): builds the rectangle from
its four bounds, in the argument order used by the C API. -/
def BLI_rcti_init (xmin xmax ymin ymax : Int) : rcti :=
  { xmin := xmin, xmax := xmax, ymin := ymin, ymax := ymax }

/-- The BLI `MIN2` macro: `(a) < (b) ? (a) : (b)`. -/
def MIN2 (a b : Int) : Int := if a < b then a else b

/-- One sub-work built by `execute_work`.  The C lambda captures `sub_work_y`
and `sub_work_height` by value (`[=]`), so each `WorkPackage` carries the
values of these two variables at the moment the package was built. -/
structure WorkPackage where
  sub_work_y : Int
  sub_work_height : Int
deriving DecidableEq, Repr

/-- The `execute_fn` callback of a sub-work (COM_ExecutionSystem.cc lines
152-160).  It first re-checks `is_breaked()`; when the probe is true it
returns without calling `work_func` (result `none`).  Otherwise it builds
`split_rect` via `BLI_rcti_init(&split_rect, work_rect.xmin, work_rect.xmax,
sub_work_y, sub_work_y + sub_work_height)` and passes it to `work_func`
(result `some split_rect`, the exact rectangle handed to the caller's
function). -/
def execute_fn (work_rect : rcti) (w : WorkPackage) (breaked : Bool) : Option rcti :=
  if breaked then none
  else some (BLI_rcti_init work_rect.xmin work_rect.xmax w.sub_work_y
    (w.sub_work_y + w.sub_work_height))

/-- The effect of one `executed_fn` completion callback on the completion
counter `num_sub_works_finished` (lines 161-168): under the mutex the
counter is incremented by exactly one. -/
def executed_fn (num_sub_works_finished : Int) : Int := num_sub_works_finished + 1

/-- Value of the completion counter after `j` completion callbacks of one
split-and-wait cycle have run: the counter starts at `0` (line 140) and each
callback applies `executed_fn`. -/
def counter_after : Nat → Int
  | 0 => 0
  | Nat.succ j => executed_fn (counter_after j)

/-- The submission loop of `execute_work` (lines 141-171), iterated `n`
times with the loop-carried variables `remaining_height` and `sub_work_y`.
Returns the list of built work packages in submission order together with
the final value of `sub_work_y`. -/
def split_loop (n : Nat) (split_height remaining_height sub_work_y : Int) :
    List WorkPackage × Int :=
  match n with
  | 0 => ([], sub_work_y)
  | Nat.succ m =>
    let sub_work_height := if remaining_height > 0 then split_height + 1 else split_height
    let remaining' := if remaining_height > 0 then remaining_height - 1 else remaining_height
    let rest := split_loop m split_height remaining' (sub_work_y + sub_work_height)
    (⟨sub_work_y, sub_work_height⟩ :: rest.1, rest.2)

/-- Observable outcome of one `execute_work` call:
`returned_early` is true when the entry cancellation check (lines 128-130)
took the early return; `num_sub_works` is the value of the local
`num_sub_works`; `sub_works` are the built packages in order;
`final_sub_work_y` is `sub_work_y` after the loop (the value the
`BLI_assert` at line 172 compares against `work_rect.ymax`); `scheduled`
lists the packages passed to `WorkScheduler::schedule`, in order; and
`called_finish` records whether `WorkScheduler::finish()` (line 174) was
reached. -/
structure ExecuteWorkTrace where
  returned_early : Bool
  num_sub_works : Int
  sub_works : List WorkPackage
  final_sub_work_y : Int
  scheduled : List WorkPackage
  called_finish : Bool
deriving DecidableEq, Repr

/-- The local `num_sub_works` of `execute_work` (line 134):
`MIN2(num_work_threads_, work_height)`. -/
def num_sub_works_of (num_work_threads : Int) (work_rect : rcti) : Int :=
  MIN2 num_work_threads (BLI_rcti_size_y work_rect)

/-- The local `split_height` of `execute_work` (line 135):
`num_sub_works == 0 ? 0 : work_height / num_sub_works`, with C truncating
division. -/
def split_height_of (num_work_threads : Int) (work_rect : rcti) : Int :=
  if num_sub_works_of num_work_threads work_rect = 0 then 0
  else Int.tdiv (BLI_rcti_size_y work_rect) (num_sub_works_of num_work_threads work_rect)

/-- The initial value of the local `remaining_height` of `execute_work`
(line 136): `work_height - split_height * num_sub_works`. -/
def remaining_height_of (num_work_threads : Int) (work_rect : rcti) : Int :=
  BLI_rcti_size_y work_rect -
    split_height_of num_work_threads work_rect * num_sub_works_of num_work_threads work_rect

/-- `ExecutionSystem::execute_work` (lines 125-184), as a trace function of
the cancellation probe value at entry (`breaked`), the worker count
`num_work_threads_` and the work rectangle.  Every package built in the
loop is also scheduled (line 169 runs once per iteration), so `scheduled`
equals `sub_works`. -/
def execute_work (breaked : Bool) (num_work_threads : Int) (work_rect : rcti) :
    ExecuteWorkTrace :=
  if breaked then
    { returned_early := true
      num_sub_works := 0
      sub_works := []
      final_sub_work_y := work_rect.ymin
      scheduled := []
      called_finish := false }
  else
    let looped := split_loop (num_sub_works_of num_work_threads work_rect).toNat
      (split_height_of num_work_threads work_rect)
      (remaining_height_of num_work_threads work_rect) work_rect.ymin
    { returned_early := false
      num_sub_works := num_sub_works_of num_work_threads work_rect
      sub_works := looped.1
      final_sub_work_y := looped.2
      scheduled := looped.1
      called_finish := true }

/-- The final backstop wait (lines 179-183): after `WorkScheduler::finish()`
the thread blocks on `work_finished_cond_` if and only if the completion
counter `num_sub_works_finished` is still strictly below `num_sub_works`.
`finished` is the counter value at that point; when no package was
scheduled no completion callback can have run, so `finished = 0` there. -/
def reaches_cond_wait (t : ExecuteWorkTrace) (finished : Int) : Bool :=
  decide (finished < t.num_sub_works)

/-- The execution-model selector `eExecutionModel` switched on in the
constructor (lines 74-84).  The C++ enum declares `Tiled` and `FullFrame`;
`Unrecognized` stands for any other value the underlying integer type can
hold (the value the `default:` branch of the switch is written for). -/
inductive eExecutionModel where
  | Tiled
  | FullFrame
  | Unrecognized
deriving DecidableEq, Repr

/-- The two concrete execution-model objects the constructor can build. -/
inductive ExecutionModelChoice where
  | TiledExecutionModel
  | FullFrameExecutionModel
deriving DecidableEq, Repr

/-- The `switch (m_context.get_execution_model())` of the constructor
(lines 74-84): `Tiled` and `FullFrame` build the corresponding model; any
other selector hits `default: BLI_assert_msg(0, "Non implemented execution
model")`, a fatal programming-error assertion, modelled as `none`. -/
def select_execution_model : eExecutionModel → Option ExecutionModelChoice
  | eExecutionModel.Tiled => some ExecutionModelChoice.TiledExecutionModel
  | eExecutionModel.FullFrame => some ExecutionModelChoice.FullFrameExecutionModel
  | eExecutionModel.Unrecognized => none

/-- One observable step of the destructor `~ExecutionSystem`. -/
inductive TeardownStep where
  | conditionEnd
  | mutexEnd
  | deleteExecutionModel
  | deleteOperation
  | deleteGroup
deriving DecidableEq, Repr

/-- The teardown sequence of `~ExecutionSystem` (lines 88-104) for a system
holding `num_operations` operations and `num_groups` groups, in source
order: `BLI_condition_end(&work_finished_cond_)`, then
`BLI_mutex_end(&work_mutex_)`, then `delete execution_model_`, then the
loop deleting every operation, then the loop deleting every group. -/
def destructor_steps (num_operations num_groups : Nat) : List TeardownStep :=
  TeardownStep.conditionEnd :: TeardownStep.mutexEnd :: TeardownStep.deleteExecutionModel ::
    (List.replicate num_operations TeardownStep.deleteOperation
      ++ List.replicate num_groups TeardownStep.deleteGroup)

/-- Position of a teardown step kind in the order the destructor performs
them, used to state ordering properties of the teardown sequence. -/
def teardown_rank : TeardownStep → Nat
  | TeardownStep.conditionEnd => 0
  | TeardownStep.mutexEnd => 1
  | TeardownStep.deleteExecutionModel => 2
  | TeardownStep.deleteOperation => 3
  | TeardownStep.deleteGroup => 4

/-- A row `row` is covered by a sub-work's rectangle when it lies in the
half-open row range `[sub_work_y, sub_work_y + sub_work_height)`. -/
def covers (w : WorkPackage) (row : Int) : Prop :=
  w.sub_work_y ≤ row ∧ row < w.sub_work_y + w.sub_work_height

instance (w : WorkPackage) (row : Int) : Decidable (covers w row) := by
  unfold covers; infer_instance

/-- Sub-works `ws` are vertically stacked and contiguous from `a` up to `b`:
the first starts at `a`, each has positive height and starts where the
previous one ended, and the last ends at `b`. -/
def is_chain (a b : Int) : List WorkPackage → Prop
  | [] => a = b
  | w :: rest =>
    w.sub_work_y = a ∧ 0 < w.sub_work_height ∧
      is_chain (a + w.sub_work_height) b rest

theorem MIN2_eq_min (a b : Int) : MIN2 a b = min a b := by
  unfold MIN2; split <;> omega

theorem split_loop_succ_pos (m : Nat) (s r y : Int) (h : 0 < r) :
    split_loop (m + 1) s r y =
      ((⟨y, s + 1⟩ : WorkPackage) :: (split_loop m s (r - 1) (y + (s + 1))).1,
        (split_loop m s (r - 1) (y + (s + 1))).2) := by
  simp [split_loop, h]

theorem split_loop_succ_nonpos (m : Nat) (s r y : Int) (h : ¬ 0 < r) :
    split_loop (m + 1) s r y =
      ((⟨y, s⟩ : WorkPackage) :: (split_loop m s r (y + s)).1,
        (split_loop m s r (y + s)).2) := by
  simp [split_loop, h]

theorem split_loop_fst_succ_pos (m : Nat) (s r y : Int) (h : 0 < r) :
    (split_loop (m + 1) s r y).1 =
      (⟨y, s + 1⟩ : WorkPackage) :: (split_loop m s (r - 1) (y + (s + 1))).1 := by
  rw [split_loop_succ_pos m s r y h]

theorem split_loop_snd_succ_pos (m : Nat) (s r y : Int) (h : 0 < r) :
    (split_loop (m + 1) s r y).2 = (split_loop m s (r - 1) (y + (s + 1))).2 := by
  rw [split_loop_succ_pos m s r y h]

theorem split_loop_fst_succ_nonpos (m : Nat) (s r y : Int) (h : ¬ 0 < r) :
    (split_loop (m + 1) s r y).1 =
      (⟨y, s⟩ : WorkPackage) :: (split_loop m s r (y + s)).1 := by
  rw [split_loop_succ_nonpos m s r y h]

theorem split_loop_snd_succ_nonpos (m : Nat) (s r y : Int) (h : ¬ 0 < r) :
    (split_loop (m + 1) s r y).2 = (split_loop m s r (y + s)).2 := by
  rw [split_loop_succ_nonpos m s r y h]

theorem split_loop_length (n : Nat) (s r y : Int) :
    (split_loop n s r y).1.length = n := by
  induction n generalizing r y with
  | zero => rfl
  | succ m ih =>
    by_cases h : 0 < r
    · rw [split_loop_succ_pos m s r y h]; simp [ih]
    · rw [split_loop_succ_nonpos m s r y h]; simp [ih]

theorem split_loop_sum (n : Nat) (s r y : Int) :
    (split_loop n s r y).2 =
      y + ((split_loop n s r y).1.map WorkPackage.sub_work_height).sum := by
  induction n generalizing r y with
  | zero => simp [split_loop]
  | succ m ih =>
    by_cases h : 0 < r
    · rw [split_loop_succ_pos m s r y h]; simp [ih]; ring
    · rw [split_loop_succ_nonpos m s r y h]; simp [ih]; ring

theorem split_loop_final (n : Nat) (s : Int) :
    ∀ (r y : Int), 0 ≤ r → (split_loop n s r y).2 = y + n * s + min (n : Int) r := by
  induction n with
  | zero =>
    intro r y hr
    simp only [split_loop, Nat.cast_zero, zero_mul]
    omega
  | succ m ih =>
    intro r y hr
    by_cases h : 0 < r
    · rw [split_loop_succ_pos m s r y h]
      have := ih (r - 1) (y + (s + 1)) (by omega)
      rw [this]
      have hmin : min ((m : Int) + 1) r = min (m : Int) (r - 1) + 1 := by omega
      push_cast
      rw [hmin]
      ring
    · have hr0 : r = 0 := by omega
      subst hr0
      rw [split_loop_succ_nonpos m s 0 y h]
      have := ih 0 (y + s) le_rfl
      rw [this]
      have hmin1 : min ((m : Int) + 1) (0 : Int) = 0 := by omega
      have hmin2 : min (m : Int) (0 : Int) = 0 := by omega
      push_cast
      rw [hmin1, hmin2]
      ring

theorem split_loop_list (n : Nat) (s : Int) :
    ∀ (r y : Int), 0 ≤ r →
      (split_loop n s r y).1 = List.ofFn (fun i : Fin n =>
        (⟨y + (i : Int) * s + min (i : Int) r,
          if (i : Int) < r then s + 1 else s⟩ : WorkPackage)) := by
  induction n with
  | zero => intro r y hr; simp [split_loop]
  | succ m ih =>
    intro r y hr
    by_cases h : 0 < r
    · rw [split_loop_fst_succ_pos m s r y h, List.ofFn_succ,
        ih (r - 1) (y + (s + 1)) (by omega)]
      simp only [List.cons.injEq, WorkPackage.mk.injEq, Fin.val_zero, Nat.cast_zero,
        zero_mul, Fin.val_succ]
      refine ⟨⟨by omega, by rw [if_pos h]⟩, ?_⟩
      congr 1
      funext i
      rw [WorkPackage.mk.injEq]
      have hmin : min ((i : Int) + 1) r = min (i : Int) (r - 1) + 1 := by omega
      constructor
      · push_cast
        rw [hmin]
        ring
      · push_cast
        by_cases hc : (i : Int) < r - 1
        · rw [if_pos hc, if_pos (by omega)]
        · rw [if_neg hc, if_neg (by omega)]
    · have hr0 : r = 0 := by omega
      subst hr0
      rw [split_loop_fst_succ_nonpos m s 0 y h, List.ofFn_succ, ih 0 (y + s) le_rfl]
      simp only [List.cons.injEq, WorkPackage.mk.injEq, Fin.val_zero, Nat.cast_zero,
        zero_mul, Fin.val_succ]
      refine ⟨⟨by omega, by rw [if_neg h]⟩, ?_⟩
      congr 1
      funext i
      rw [WorkPackage.mk.injEq]
      constructor
      · push_cast
        have hmin : min ((i : Int) + 1) (0 : Int) = 0 := by omega
        have hmin2 : min (i : Int) (0 : Int) = 0 := by omega
        rw [hmin, hmin2]
        ring
      · push_cast
        rw [if_neg (by omega), if_neg (by omega)]

theorem split_loop_chain (n : Nat) (s : Int) (hs : 0 < s) :
    ∀ (r y : Int), 0 ≤ r →
      is_chain y (split_loop n s r y).2 (split_loop n s r y).1 := by
  induction n with
  | zero => intro r y hr; simp [split_loop, is_chain]
  | succ m ih =>
    intro r y hr
    by_cases h : 0 < r
    · rw [split_loop_fst_succ_pos m s r y h, split_loop_snd_succ_pos m s r y h]
      refine ⟨rfl, ?_, ?_⟩
      · show (0 : Int) < s + 1
        omega
      · exact ih (r - 1) (y + (s + 1)) (by omega)
    · have hr0 : r = 0 := by omega
      subst hr0
      rw [split_loop_fst_succ_nonpos m s 0 y h, split_loop_snd_succ_nonpos m s 0 y h]
      refine ⟨rfl, ?_, ?_⟩
      · show (0 : Int) < s
        omega
      · exact ih 0 (y + s) le_rfl

theorem is_chain_le (a b : Int) (ws : List WorkPackage) (h : is_chain a b ws) : a ≤ b := by
  induction ws generalizing a with
  | nil => simp only [is_chain] at h; omega
  | cons w rest ih =>
    obtain ⟨-, hh, hc⟩ := h
    have := ih _ hc
    omega

theorem is_chain_mem_bounds (a b : Int) (ws : List WorkPackage) (h : is_chain a b ws) :
    ∀ w ∈ ws, a ≤ w.sub_work_y ∧ w.sub_work_y + w.sub_work_height ≤ b := by
  induction ws generalizing a with
  | nil => simp
  | cons w rest ih =>
    obtain ⟨hy, hh, hc⟩ := h
    intro v hv
    rcases List.mem_cons.mp hv with h1 | h2
    · subst h1
      have := is_chain_le _ _ _ hc
      omega
    · have := ih _ hc v h2
      omega

theorem is_chain_cover (a b : Int) (ws : List WorkPackage) (h : is_chain a b ws) (row : Int) :
    (a ≤ row ∧ row < b) ↔ ∃! i : Fin ws.length, covers (ws.get i) row := by
  induction ws generalizing a with
  | nil =>
    simp only [is_chain] at h
    subst h
    constructor
    · rintro ⟨h1, h2⟩
      omega
    · rintro ⟨i, -⟩
      exact absurd i.isLt (by simp)
  | cons w rest ih =>
    obtain ⟨hy, hh, hc⟩ := h
    have hcb : a + w.sub_work_height ≤ b := is_chain_le _ _ _ hc
    have hbnd := is_chain_mem_bounds _ _ _ hc
    constructor
    · rintro ⟨h1, h2⟩
      by_cases hin : row < a + w.sub_work_height
      · refine ⟨⟨0, by simp⟩, ⟨?_, ?_⟩, ?_⟩
        · show w.sub_work_y ≤ row
          omega
        · show row < w.sub_work_y + w.sub_work_height
          omega
        · rintro ⟨j, hj⟩ hcov
          cases j with
          | zero => rfl
          | succ k =>
            exfalso
            have hk : k < rest.length := by simpa using hj
            have hmem : rest.get ⟨k, hk⟩ ∈ rest := List.get_mem rest k hk
            have := (hbnd _ hmem).1
            have hcov1 : ((w :: rest).get ⟨k + 1, hj⟩).sub_work_y ≤ row := hcov.1
            rw [List.get_cons_succ] at hcov1
            omega
      · have hrow : a + w.sub_work_height ≤ row := by omega
        obtain ⟨⟨k, hk⟩, hkcov, hkuniq⟩ := (ih _ hc).mp ⟨hrow, h2⟩
        refine ⟨⟨k + 1, by simpa using hk⟩, ?_, ?_⟩
        · show covers ((w :: rest).get ⟨k + 1, _⟩) row
          rw [List.get_cons_succ]
          exact hkcov
        · rintro ⟨j, hj⟩ hcov
          cases j with
          | zero =>
            exfalso
            have hcov2 : row < ((w :: rest).get ⟨0, hj⟩).sub_work_y +
              ((w :: rest).get ⟨0, hj⟩).sub_work_height := hcov.2
            have : ((w :: rest).get ⟨0, hj⟩) = w := rfl
            rw [this] at hcov2
            omega
          | succ l =>
            have hl : l < rest.length := by simpa using hj
            have hcov' : covers ((w :: rest).get ⟨l + 1, hj⟩) row := hcov
            rw [List.get_cons_succ] at hcov'
            have heq : (⟨l, Nat.lt_of_succ_lt_succ hj⟩ : Fin rest.length) = ⟨k, hk⟩ :=
              hkuniq _ hcov'
            simp only [Fin.mk.injEq] at heq ⊢
            omega
    · rintro ⟨⟨j, hj⟩, hcov, -⟩
      cases j with
      | zero =>
        have h0 : ((w :: rest).get ⟨0, hj⟩) = w := rfl
        rw [h0] at hcov
        obtain ⟨hcov1, hcov2⟩ := hcov
        constructor
        · omega
        · omega
      | succ l =>
        have hl : l < rest.length := by simpa using hj
        have hcov' : covers ((w :: rest).get ⟨l + 1, hj⟩) row := hcov
        rw [List.get_cons_succ] at hcov'
        have hmem : rest.get ⟨l, Nat.lt_of_succ_lt_succ hj⟩ ∈ rest :=
          List.get_mem rest l _
        have := hbnd _ hmem
        obtain ⟨hcov1, hcov2⟩ := hcov'
        constructor
        · omega
        · omega

theorem execute_work_false (K : Int) (wr : rcti) :
    execute_work false K wr =
      { returned_early := false
        num_sub_works := num_sub_works_of K wr
        sub_works := (split_loop (num_sub_works_of K wr).toNat (split_height_of K wr)
          (remaining_height_of K wr) wr.ymin).1
        final_sub_work_y := (split_loop (num_sub_works_of K wr).toNat (split_height_of K wr)
          (remaining_height_of K wr) wr.ymin).2
        scheduled := (split_loop (num_sub_works_of K wr).toNat (split_height_of K wr)
          (remaining_height_of K wr) wr.ymin).1
        called_finish := true } := by
  simp [execute_work]

theorem execute_work_true (K : Int) (wr : rcti) :
    execute_work true K wr =
      { returned_early := true
        num_sub_works := 0
        sub_works := []
        final_sub_work_y := wr.ymin
        scheduled := []
        called_finish := false } := by
  simp [execute_work]

theorem num_sub_works_eq_min (K : Int) (r : rcti) :
    num_sub_works_of K r = min K (BLI_rcti_size_y r) := by
  unfold num_sub_works_of
  exact MIN2_eq_min K (BLI_rcti_size_y r)

theorem num_sub_works_bounds (K : Int) (r : rcti) (hK : 1 ≤ K)
    (hH : 0 ≤ BLI_rcti_size_y r) :
    0 ≤ num_sub_works_of K r ∧ num_sub_works_of K r ≤ BLI_rcti_size_y r ∧
      num_sub_works_of K r ≤ K ∧
      (0 < BLI_rcti_size_y r → 1 ≤ num_sub_works_of K r) ∧
      (BLI_rcti_size_y r = 0 → num_sub_works_of K r = 0) := by
  rw [num_sub_works_eq_min]
  omega

theorem split_height_eq_tdiv (K : Int) (r : rcti) (hK : 1 ≤ K)
    (hH : 0 < BLI_rcti_size_y r) :
    split_height_of K r = Int.tdiv (BLI_rcti_size_y r) (num_sub_works_of K r) := by
  have hn := num_sub_works_bounds K r hK (by omega)
  unfold split_height_of
  rw [if_neg (by omega)]

theorem split_height_pos (K : Int) (r : rcti) (hK : 1 ≤ K)
    (hH : 0 < BLI_rcti_size_y r) :
    1 ≤ split_height_of K r := by
  have hn := num_sub_works_bounds K r hK (by omega)
  rw [split_height_eq_tdiv K r hK hH,
    Int.tdiv_eq_ediv (by omega) (by omega),
    Int.le_ediv_iff_mul_le (by omega)]
  omega

theorem remaining_height_eq_tmod (K : Int) (r : rcti) (hK : 1 ≤ K)
    (hH : 0 ≤ BLI_rcti_size_y r) :
    remaining_height_of K r = Int.tmod (BLI_rcti_size_y r) (num_sub_works_of K r) := by
  have hn := num_sub_works_bounds K r hK hH
  by_cases hH0 : BLI_rcti_size_y r = 0
  · have hn0 : num_sub_works_of K r = 0 := hn.2.2.2.2 hH0
    unfold remaining_height_of
    rw [hn0, hH0, Int.tmod_zero]
    ring
  · have hpos : 0 < BLI_rcti_size_y r := by omega
    unfold remaining_height_of
    rw [split_height_eq_tdiv K r hK hpos,
      Int.tdiv_eq_ediv (by omega) (by omega),
      Int.tmod_eq_emod (by omega) (by omega),
      Int.emod_def]
    ring

theorem remaining_height_bounds (K : Int) (r : rcti) (hK : 1 ≤ K)
    (hH : 0 ≤ BLI_rcti_size_y r) :
    0 ≤ remaining_height_of K r ∧
      remaining_height_of K r ≤ num_sub_works_of K r := by
  have hn := num_sub_works_bounds K r hK hH
  by_cases hH0 : BLI_rcti_size_y r = 0
  · have hn0 : num_sub_works_of K r = 0 := hn.2.2.2.2 hH0
    unfold remaining_height_of
    rw [hn0, hH0]
    simp
  · have hpos : 0 < BLI_rcti_size_y r := by omega
    rw [remaining_height_eq_tmod K r hK hH,
      Int.tmod_eq_emod (by omega) (by omega)]
    have h1 := Int.emod_nonneg (BLI_rcti_size_y r)
      (show num_sub_works_of K r ≠ 0 by omega)
    have h2 := Int.emod_lt_of_pos (BLI_rcti_size_y r)
      (show 0 < num_sub_works_of K r by omega)
    omega

theorem execute_work_final_y (K : Int) (r : rcti) (hK : 1 ≤ K)
    (hH : 0 ≤ BLI_rcti_size_y r) :
    (execute_work false K r).final_sub_work_y = r.ymax := by
  have hn := num_sub_works_bounds K r hK hH
  have hrm := remaining_height_bounds K r hK hH
  rw [execute_work_false]
  show (split_loop (num_sub_works_of K r).toNat (split_height_of K r)
    (remaining_height_of K r) r.ymin).2 = r.ymax
  rw [split_loop_final _ _ _ _ hrm.1]
  rw [Int.toNat_of_nonneg hn.1]
  have hmin : min (num_sub_works_of K r) (remaining_height_of K r) =
      remaining_height_of K r := by omega
  rw [hmin]
  unfold remaining_height_of BLI_rcti_size_y
  ring

theorem execute_work_length (K : Int) (r : rcti) :
    (execute_work false K r).sub_works.length = (num_sub_works_of K r).toNat := by
  rw [execute_work_false]
  exact split_loop_length _ _ _ _

theorem execute_work_sum (K : Int) (r : rcti) (hK : 1 ≤ K)
    (hH : 0 ≤ BLI_rcti_size_y r) :
    ((execute_work false K r).sub_works.map WorkPackage.sub_work_height).sum =
      BLI_rcti_size_y r := by
  have h2 := execute_work_final_y K r hK hH
  rw [execute_work_false] at h2 ⊢
  have h1 := split_loop_sum (num_sub_works_of K r).toNat (split_height_of K r)
    (remaining_height_of K r) r.ymin
  show ((split_loop (num_sub_works_of K r).toNat (split_height_of K r)
    (remaining_height_of K r) r.ymin).1.map WorkPackage.sub_work_height).sum =
    BLI_rcti_size_y r
  have h2' : (split_loop (num_sub_works_of K r).toNat (split_height_of K r)
    (remaining_height_of K r) r.ymin).2 = r.ymax := h2
  unfold BLI_rcti_size_y
  omega

example :
    (execute_work false 4 (BLI_rcti_init 0 7 0 10)).sub_works =
      [⟨0, 3⟩, ⟨3, 3⟩, ⟨6, 2⟩, ⟨8, 2⟩] := by decide

example : (execute_work false 4 (BLI_rcti_init 0 7 0 10)).final_sub_work_y = 10 := by decide

example : (execute_work false 1 (BLI_rcti_init 0 7 2 9)).sub_works = [⟨2, 7⟩] := by decide

example : (execute_work false 4 (BLI_rcti_init 0 5 3 3)).called_finish = true := by decide

example : (execute_work false 3 (BLI_rcti_init 0 5 9 2)).num_sub_works = -7 := by decide

theorem execute_work_heights_map (K : Int) (hK : 1 ≤ K) (r : rcti)
    (hH : 0 ≤ BLI_rcti_size_y r) :
    (execute_work false K r).sub_works.map WorkPackage.sub_work_height =
      List.ofFn (fun i : Fin (min K (BLI_rcti_size_y r)).toNat =>
        if ((i : Nat) : Int) < Int.tmod (BLI_rcti_size_y r) (min K (BLI_rcti_size_y r))
        then Int.tdiv (BLI_rcti_size_y r) (min K (BLI_rcti_size_y r)) + 1
        else Int.tdiv (BLI_rcti_size_y r) (min K (BLI_rcti_size_y r))) := by
  have hrm := remaining_height_bounds K r hK hH
  by_cases hH0 : BLI_rcti_size_y r = 0
  · have hn0 : (num_sub_works_of K r).toNat = 0 := by
      rw [num_sub_works_eq_min]; omega
    have hminKH : (min K (BLI_rcti_size_y r)).toNat = 0 := by omega
    rw [execute_work_false]
    show ((split_loop (num_sub_works_of K r).toNat (split_height_of K r)
      (remaining_height_of K r) r.ymin).1.map WorkPackage.sub_work_height) = _
    rw [hn0, hminKH]
    simp [split_loop]
  · have hpos : 0 < BLI_rcti_size_y r := by omega
    have hs_eq : split_height_of K r =
        Int.tdiv (BLI_rcti_size_y r) (min K (BLI_rcti_size_y r)) := by
      rw [split_height_eq_tdiv K r hK hpos, num_sub_works_eq_min]
    have hr_eq : remaining_height_of K r =
        Int.tmod (BLI_rcti_size_y r) (min K (BLI_rcti_size_y r)) := by
      rw [remaining_height_eq_tmod K r hK hH, num_sub_works_eq_min]
    rw [execute_work_false]
    show ((split_loop (num_sub_works_of K r).toNat (split_height_of K r)
      (remaining_height_of K r) r.ymin).1.map WorkPackage.sub_work_height) = _
    rw [split_loop_list (num_sub_works_of K r).toNat (split_height_of K r)
      (remaining_height_of K r) r.ymin hrm.1, List.map_ofFn, num_sub_works_eq_min]
    congr 1
    funext i
    show (if ((i : Nat) : Int) < remaining_height_of K r
      then split_height_of K r + 1 else split_height_of K r) = _
    rw [hs_eq, hr_eq]

/-- C1: for a work region of height H ≥ 0 and worker count K ≥ 1, with the
cancellation probe false, `execute_work` creates exactly `min K H`
sub-regions (`0` when `H = 0`), their heights sum exactly to `H`, the i-th
sub-region's height is the base height `H tdiv min K H` plus one extra row
exactly when `i < H tmod min K H` (the remainder goes to the first
sub-regions), and every sub-region height is the base height or the base
height plus one. -/
theorem execute_work_split_balanced (K : Int) (hK : 1 ≤ K) (r : rcti)
    (hH : 0 ≤ BLI_rcti_size_y r) :
    (execute_work false K r).sub_works.length = (min K (BLI_rcti_size_y r)).toNat ∧
    ((execute_work false K r).sub_works.map WorkPackage.sub_work_height).sum =
      BLI_rcti_size_y r ∧
    (execute_work false K r).sub_works.map WorkPackage.sub_work_height =
      List.ofFn (fun i : Fin (min K (BLI_rcti_size_y r)).toNat =>
        if ((i : Nat) : Int) < Int.tmod (BLI_rcti_size_y r) (min K (BLI_rcti_size_y r))
        then Int.tdiv (BLI_rcti_size_y r) (min K (BLI_rcti_size_y r)) + 1
        else Int.tdiv (BLI_rcti_size_y r) (min K (BLI_rcti_size_y r))) ∧
    ∀ w ∈ (execute_work false K r).sub_works,
      w.sub_work_height = Int.tdiv (BLI_rcti_size_y r) (min K (BLI_rcti_size_y r)) ∨
      w.sub_work_height = Int.tdiv (BLI_rcti_size_y r) (min K (BLI_rcti_size_y r)) + 1 := by
  have hmap := execute_work_heights_map K hK r hH
  refine ⟨?_, execute_work_sum K r hK hH, hmap, ?_⟩
  · rw [execute_work_length K r, num_sub_works_eq_min]
  · intro w hw
    have hmem : w.sub_work_height ∈
        (execute_work false K r).sub_works.map WorkPackage.sub_work_height :=
      List.mem_map_of_mem WorkPackage.sub_work_height hw
    rw [hmap] at hmem
    obtain ⟨i, hi⟩ := (List.mem_ofFn _ _).mp hmem
    have hi' : (if ((i : Nat) : Int) <
          Int.tmod (BLI_rcti_size_y r) (min K (BLI_rcti_size_y r))
        then Int.tdiv (BLI_rcti_size_y r) (min K (BLI_rcti_size_y r)) + 1
        else Int.tdiv (BLI_rcti_size_y r) (min K (BLI_rcti_size_y r))) =
        w.sub_work_height := hi
    by_cases hc : ((i : Nat) : Int) <
        Int.tmod (BLI_rcti_size_y r) (min K (BLI_rcti_size_y r))
    · rw [if_pos hc] at hi'
      right
      exact hi'.symm
    · rw [if_neg hc] at hi'
      left
      exact hi'.symm

theorem execute_work_split_balanced_witness :
    (execute_work false 4 (BLI_rcti_init 0 7 0 10)).sub_works.length =
      (min (4 : Int) (BLI_rcti_size_y (BLI_rcti_init 0 7 0 10))).toNat ∧
    ((execute_work false 4 (BLI_rcti_init 0 7 0 10)).sub_works.map
      WorkPackage.sub_work_height).sum = BLI_rcti_size_y (BLI_rcti_init 0 7 0 10) ∧
    (execute_work false 4 (BLI_rcti_init 0 7 0 10)).sub_works.map
        WorkPackage.sub_work_height =
      List.ofFn (fun i : Fin (min (4 : Int)
          (BLI_rcti_size_y (BLI_rcti_init 0 7 0 10))).toNat =>
        if ((i : Nat) : Int) < Int.tmod (BLI_rcti_size_y (BLI_rcti_init 0 7 0 10))
            (min (4 : Int) (BLI_rcti_size_y (BLI_rcti_init 0 7 0 10)))
        then Int.tdiv (BLI_rcti_size_y (BLI_rcti_init 0 7 0 10))
            (min (4 : Int) (BLI_rcti_size_y (BLI_rcti_init 0 7 0 10))) + 1
        else Int.tdiv (BLI_rcti_size_y (BLI_rcti_init 0 7 0 10))
            (min (4 : Int) (BLI_rcti_size_y (BLI_rcti_init 0 7 0 10)))) ∧
    ∀ w ∈ (execute_work false 4 (BLI_rcti_init 0 7 0 10)).sub_works,
      w.sub_work_height = Int.tdiv (BLI_rcti_size_y (BLI_rcti_init 0 7 0 10))
        (min (4 : Int) (BLI_rcti_size_y (BLI_rcti_init 0 7 0 10))) ∨
      w.sub_work_height = Int.tdiv (BLI_rcti_size_y (BLI_rcti_init 0 7 0 10))
        (min (4 : Int) (BLI_rcti_size_y (BLI_rcti_init 0 7 0 10))) + 1 :=
  execute_work_split_balanced 4 (by decide) (BLI_rcti_init 0 7 0 10) (by decide)

/-- C4: region of height 10 with worker count 4 and cancellation false:
exactly four sub-regions, with heights [3, 3, 2, 2] in order, starting y
offsets [0, 3, 6, 8] relative to the region's ymin (= 0 here), and the
final running offset reaches 10. -/
theorem execute_work_scenario_A :
    (execute_work false 4 (BLI_rcti_init 0 7 0 10)).sub_works.length = 4 ∧
    (execute_work false 4 (BLI_rcti_init 0 7 0 10)).sub_works =
      [⟨0, 3⟩, ⟨3, 3⟩, ⟨6, 2⟩, ⟨8, 2⟩] ∧
    (execute_work false 4 (BLI_rcti_init 0 7 0 10)).final_sub_work_y = 10 := by
  decide

/-- C2 counterexample: for a work region of height 0 with cancellation
false, `execute_work` builds no sub-regions and schedules nothing, but it
does reach the `WorkScheduler::finish()` barrier call — contradicting the
claim that no Scheduler Service call (submission or barrier/finish) is
made. -/
theorem execute_work_zero_height_calls_finish :
    (execute_work false 4 (BLI_rcti_init 0 5 3 3)).sub_works = [] ∧
    (execute_work false 4 (BLI_rcti_init 0 5 3 3)).scheduled = [] ∧
    (execute_work false 4 (BLI_rcti_init 0 5 3 3)).called_finish = true := by
  decide

/-- C2 amended: for a work region of height 0 (ymin = ymax, worker count
K ≥ 1, cancellation probe false), `execute_work` creates zero sub-regions,
submits zero work items, and does not block on the completion condition
variable (the finished counter 0 is not below the sub-work count 0), but
it still makes the Scheduler Service barrier call `WorkScheduler::finish()`. -/
theorem execute_work_zero_height_spec (K : Int) (hK : 1 ≤ K) (r : rcti)
    (h : r.ymin = r.ymax) :
    (execute_work false K r).sub_works = [] ∧
    (execute_work false K r).scheduled = [] ∧
    reaches_cond_wait (execute_work false K r) 0 = false ∧
    (execute_work false K r).called_finish = true := by
  have hH : BLI_rcti_size_y r = 0 := by unfold BLI_rcti_size_y; omega
  have hn0 : num_sub_works_of K r = 0 := by rw [num_sub_works_eq_min]; omega
  have htn : (num_sub_works_of K r).toNat = 0 := by omega
  rw [execute_work_false]
  refine ⟨?_, ?_, ?_, rfl⟩
  · show (split_loop (num_sub_works_of K r).toNat (split_height_of K r)
      (remaining_height_of K r) r.ymin).1 = []
    rw [htn]
    rfl
  · show (split_loop (num_sub_works_of K r).toNat (split_height_of K r)
      (remaining_height_of K r) r.ymin).1 = []
    rw [htn]
    rfl
  · show decide ((0 : Int) < num_sub_works_of K r) = false
    rw [decide_eq_false_iff_not]
    omega

theorem execute_work_zero_height_spec_witness :
    (execute_work false 4 (BLI_rcti_init 0 5 3 3)).sub_works = [] ∧
    (execute_work false 4 (BLI_rcti_init 0 5 3 3)).scheduled = [] ∧
    reaches_cond_wait (execute_work false 4 (BLI_rcti_init 0 5 3 3)) 0 = false ∧
    (execute_work false 4 (BLI_rcti_init 0 5 3 3)).called_finish = true :=
  execute_work_zero_height_spec 4 (by decide) (BLI_rcti_init 0 5 3 3) (by decide)

/-- C6: when the cancellation probe is true at entry, `execute_work` takes
the early return: it builds no sub-works, submits zero work items, never
reaches the Scheduler Service barrier call, and does not block on the
condition variable — and this holds identically for any two calls (the
cancelled path is a pure function of its inputs), so calling it twice with
cancellation true both times submits zero items both times. -/
theorem execute_work_cancelled_idempotent (K1 K2 : Int) (r1 r2 : rcti) :
    (execute_work true K1 r1).returned_early = true ∧
    (execute_work true K1 r1).sub_works = [] ∧
    (execute_work true K1 r1).scheduled = [] ∧
    (execute_work true K1 r1).called_finish = false ∧
    reaches_cond_wait (execute_work true K1 r1) 0 = false ∧
    (execute_work true K2 r2).returned_early = true ∧
    (execute_work true K2 r2).scheduled = [] ∧
    (execute_work true K2 r2).called_finish = false := by
  rw [execute_work_true, execute_work_true]
  refine ⟨rfl, rfl, rfl, rfl, ?_, rfl, rfl, rfl⟩
  rw [reaches_cond_wait]
  rfl

/-- C3: for a work region with ymin ≤ ymax and K ≥ 1, not cancelled at
entry, the execute callbacks pass sub-rectangles spanning the region's full
x-range with the sub-work's own row range; the sub-works are vertically
stacked and contiguous starting at ymin and ending at ymax; every row of
the region is covered by exactly one sub-work (no gaps, no overlaps); and
the running offset after the loop equals the region's ymax, so the
`BLI_assert(sub_work_y == work_rect.ymax)` always holds. -/
theorem execute_work_tiling (K : Int) (hK : 1 ≤ K) (r : rcti)
    (hle : r.ymin ≤ r.ymax) :
    (∀ w ∈ (execute_work false K r).sub_works,
      execute_fn r w false = some (BLI_rcti_init r.xmin r.xmax w.sub_work_y
        (w.sub_work_y + w.sub_work_height))) ∧
    is_chain r.ymin r.ymax (execute_work false K r).sub_works ∧
    (∀ row : Int, (r.ymin ≤ row ∧ row < r.ymax) ↔
      ∃! i : Fin (execute_work false K r).sub_works.length,
        covers ((execute_work false K r).sub_works.get i) row) ∧
    (execute_work false K r).final_sub_work_y = r.ymax := by
  have hH : 0 ≤ BLI_rcti_size_y r := by unfold BLI_rcti_size_y; omega
  have hfin := execute_work_final_y K r hK hH
  have hchain : is_chain r.ymin r.ymax (execute_work false K r).sub_works := by
    by_cases hH0 : BLI_rcti_size_y r = 0
    · have htn : (num_sub_works_of K r).toNat = 0 := by
        rw [num_sub_works_eq_min]; omega
      rw [execute_work_false]
      show is_chain r.ymin r.ymax (split_loop (num_sub_works_of K r).toNat
        (split_height_of K r) (remaining_height_of K r) r.ymin).1
      rw [htn]
      show r.ymin = r.ymax
      unfold BLI_rcti_size_y at hH0
      omega
    · have hpos : 0 < BLI_rcti_size_y r := by omega
      have h1 := split_loop_chain (num_sub_works_of K r).toNat (split_height_of K r)
        (split_height_pos K r hK hpos) (remaining_height_of K r) r.ymin
        (remaining_height_bounds K r hK hH).1
      have hfin' : (split_loop (num_sub_works_of K r).toNat (split_height_of K r)
          (remaining_height_of K r) r.ymin).2 = r.ymax := by
        rw [execute_work_false] at hfin
        exact hfin
      rw [hfin'] at h1
      rw [execute_work_false]
      exact h1
  refine ⟨?_, hchain, ?_, hfin⟩
  · intro w _
    rfl
  · intro row
    exact is_chain_cover r.ymin r.ymax _ hchain row

theorem execute_work_tiling_witness :
    (∀ w ∈ (execute_work false 4 (BLI_rcti_init 0 7 0 10)).sub_works,
      execute_fn (BLI_rcti_init 0 7 0 10) w false =
        some (BLI_rcti_init (BLI_rcti_init 0 7 0 10).xmin
          (BLI_rcti_init 0 7 0 10).xmax w.sub_work_y
          (w.sub_work_y + w.sub_work_height))) ∧
    is_chain (BLI_rcti_init 0 7 0 10).ymin (BLI_rcti_init 0 7 0 10).ymax
      (execute_work false 4 (BLI_rcti_init 0 7 0 10)).sub_works ∧
    (∀ row : Int,
      ((BLI_rcti_init 0 7 0 10).ymin ≤ row ∧ row < (BLI_rcti_init 0 7 0 10).ymax) ↔
      ∃! i : Fin (execute_work false 4 (BLI_rcti_init 0 7 0 10)).sub_works.length,
        covers ((execute_work false 4 (BLI_rcti_init 0 7 0 10)).sub_works.get i) row) ∧
    (execute_work false 4 (BLI_rcti_init 0 7 0 10)).final_sub_work_y =
      (BLI_rcti_init 0 7 0 10).ymax :=
  execute_work_tiling 4 (by decide) (BLI_rcti_init 0 7 0 10) (by decide)

/-- C5: if the configured execution-strategy selector is neither Tiled nor
FullFrame, the constructor's switch reaches the `default:` branch with
`BLI_assert_msg(0, "Non implemented execution model")`: a fatal
programming/configuration fault (modelled as `none`), so no execution
model is built and the system cannot proceed to execute or schedule any
work. -/
theorem select_execution_model_fault (m : eExecutionModel)
    (h1 : m ≠ eExecutionModel.Tiled) (h2 : m ≠ eExecutionModel.FullFrame) :
    select_execution_model m = none := by
  cases m with
  | Tiled => exact absurd rfl h1
  | FullFrame => exact absurd rfl h2
  | Unrecognized => rfl

theorem select_execution_model_fault_witness :
    select_execution_model eExecutionModel.Unrecognized = none :=
  select_execution_model_fault eExecutionModel.Unrecognized (by decide) (by decide)

/-- C7: every work item built by `execute_work` has an execute callback
that re-checks the cancellation probe first: if the probe reads true at
run time the callback returns without invoking the per-region function
(`none`), and only if it reads false does it invoke the caller's function,
on exactly the sub-region's bounds (full x-range of the work rectangle,
the sub-work's own row range). -/
theorem execute_work_callback_cancellation (breaked : Bool) (K : Int) (r : rcti) :
    ∀ w ∈ (execute_work breaked K r).sub_works,
      execute_fn r w true = none ∧
      execute_fn r w false = some (BLI_rcti_init r.xmin r.xmax w.sub_work_y
        (w.sub_work_y + w.sub_work_height)) := by
  intro w _
  exact ⟨rfl, rfl⟩

theorem execute_work_callback_cancellation_witness :
    execute_fn (BLI_rcti_init 0 7 0 10) ⟨0, 3⟩ true = none ∧
    execute_fn (BLI_rcti_init 0 7 0 10) ⟨0, 3⟩ false =
      some (BLI_rcti_init (BLI_rcti_init 0 7 0 10).xmin
        (BLI_rcti_init 0 7 0 10).xmax (0 : Int) ((0 : Int) + 3)) :=
  execute_work_callback_cancellation false 4 (BLI_rcti_init 0 7 0 10)
    ⟨0, 3⟩ (by decide)

theorem counter_after_eq (j : Nat) : counter_after j = (j : Int) := by
  induction j with
  | zero => rfl
  | succ m ih =>
    show executed_fn (counter_after m) = _
    rw [ih]
    unfold executed_fn
    push_cast
    ring

/-- C8: within one split-and-wait cycle the completion counter starts at
zero, each work item's completion callback increments it by exactly one,
it is strictly monotonic in the number of callbacks run, and when every
scheduled item's callback has run (completion without cancellation) it
equals the sub-work count `min K H`. -/
theorem completion_counter_spec (K : Int) (hK : 1 ≤ K) (r : rcti)
    (hH : 0 ≤ BLI_rcti_size_y r) :
    counter_after 0 = 0 ∧
    (∀ j : Nat, counter_after (j + 1) = counter_after j + 1) ∧
    (∀ j k : Nat, j < k → counter_after j < counter_after k) ∧
    counter_after (execute_work false K r).scheduled.length =
      (execute_work false K r).num_sub_works ∧
    (execute_work false K r).num_sub_works = min K (BLI_rcti_size_y r) := by
  have hnum : (execute_work false K r).num_sub_works = num_sub_works_of K r := by
    rw [execute_work_false]
  have hlen : (execute_work false K r).scheduled.length =
      (num_sub_works_of K r).toNat := by
    rw [execute_work_false]
    exact split_loop_length _ _ _ _
  refine ⟨rfl, ?_, ?_, ?_, ?_⟩
  · intro j
    rw [counter_after_eq, counter_after_eq]
    push_cast
    ring
  · intro j k hjk
    rw [counter_after_eq, counter_after_eq]
    exact_mod_cast hjk
  · rw [hlen, counter_after_eq, hnum]
    exact Int.toNat_of_nonneg (num_sub_works_bounds K r hK hH).1
  · rw [hnum, num_sub_works_eq_min]

theorem completion_counter_spec_witness :
    counter_after 0 = 0 ∧
    (∀ j : Nat, counter_after (j + 1) = counter_after j + 1) ∧
    (∀ j k : Nat, j < k → counter_after j < counter_after k) ∧
    counter_after (execute_work false 4 (BLI_rcti_init 0 7 0 10)).scheduled.length =
      (execute_work false 4 (BLI_rcti_init 0 7 0 10)).num_sub_works ∧
    (execute_work false 4 (BLI_rcti_init 0 7 0 10)).num_sub_works =
      min (4 : Int) (BLI_rcti_size_y (BLI_rcti_init 0 7 0 10)) :=
  completion_counter_spec 4 (by decide) (BLI_rcti_init 0 7 0 10) (by decide)

/-- C9 counterexample: in the destructor's teardown sequence (shown here
for a system with one operation and one group) the Execution Model is NOT
deleted before the condition variable is released — the condition variable
release comes first (source lines 90-93) — refuting the claimed order. -/
theorem destructor_releases_barrier_first :
    ¬ ((destructor_steps 1 1).indexOf TeardownStep.deleteExecutionModel <
        (destructor_steps 1 1).indexOf TeardownStep.conditionEnd) := by
  decide

/-- C9 amended: destruction performs its teardown steps in this order:
first releases the condition variable, then the mutex of the completion
barrier, then deletes the Execution Model, then deletes every operation,
then deletes every execution group.  Stated as: the step sequence is
sorted by that rank, contains the three singleton steps, deletes exactly
`num_operations` operations and `num_groups` groups, and has exactly
`3 + num_operations + num_groups` steps. -/
theorem destructor_order_spec (num_operations num_groups : Nat) :
    List.Sorted (fun a b => teardown_rank a ≤ teardown_rank b)
      (destructor_steps num_operations num_groups) ∧
    TeardownStep.conditionEnd ∈ destructor_steps num_operations num_groups ∧
    TeardownStep.mutexEnd ∈ destructor_steps num_operations num_groups ∧
    TeardownStep.deleteExecutionModel ∈ destructor_steps num_operations num_groups ∧
    (destructor_steps num_operations num_groups).count
      TeardownStep.deleteOperation = num_operations ∧
    (destructor_steps num_operations num_groups).count
      TeardownStep.deleteGroup = num_groups ∧
    (destructor_steps num_operations num_groups).length =
      3 + num_operations + num_groups := by
  refine ⟨?_, ?_, ?_, ?_, ?_, ?_, ?_⟩
  · show List.Pairwise _ _
    unfold destructor_steps
    refine List.pairwise_cons.mpr ⟨?_, List.pairwise_cons.mpr ⟨?_,
      List.pairwise_cons.mpr ⟨?_, ?_⟩⟩⟩
    · intro b _
      exact Nat.zero_le _
    · intro b hb
      simp only [List.mem_cons, List.mem_append, List.mem_replicate] at hb
      rcases hb with h | ⟨-, h⟩ | ⟨-, h⟩ <;> subst h <;> decide
    · intro b hb
      simp only [List.mem_append, List.mem_replicate] at hb
      rcases hb with ⟨-, h⟩ | ⟨-, h⟩ <;> subst h <;> decide
    · refine List.pairwise_append.mpr ⟨?_, ?_, ?_⟩
      · exact List.pairwise_replicate.mpr (Or.inr (by decide))
      · exact List.pairwise_replicate.mpr (Or.inr (by decide))
      · intro a ha b hb
        rw [List.mem_replicate] at ha hb
        obtain ⟨-, ha2⟩ := ha
        obtain ⟨-, hb2⟩ := hb
        subst ha2
        subst hb2
        decide
  · simp [destructor_steps]
  · simp [destructor_steps]
  · simp [destructor_steps]
  · simp [destructor_steps, List.count_append, List.count_replicate, List.count_cons,
      beq_iff_eq]
  · simp [destructor_steps, List.count_append, List.count_replicate, List.count_cons,
      beq_iff_eq]
  · simp [destructor_steps]
    omega

/-- C10: for a malformed region with ymax < ymin (negative height) and
worker count K ≥ 1, with cancellation false, `execute_work` computes a
negative `num_sub_works`, runs the submission loop zero times (so it
submits zero work items), and skips the final condition-variable wait
because the finished counter 0 is not below the negative sub-work count. -/
theorem execute_work_negative_height (K : Int) (hK : 1 ≤ K) (r : rcti)
    (h : r.ymax < r.ymin) :
    (execute_work false K r).num_sub_works < 0 ∧
    (execute_work false K r).sub_works = [] ∧
    (execute_work false K r).scheduled = [] ∧
    reaches_cond_wait (execute_work false K r) 0 = false := by
  have hH : BLI_rcti_size_y r < 0 := by unfold BLI_rcti_size_y; omega
  have hn : num_sub_works_of K r < 0 := by rw [num_sub_works_eq_min]; omega
  have htn : (num_sub_works_of K r).toNat = 0 := by omega
  rw [execute_work_false]
  refine ⟨?_, ?_, ?_, ?_⟩
  · show num_sub_works_of K r < 0
    exact hn
  · show (split_loop (num_sub_works_of K r).toNat (split_height_of K r)
      (remaining_height_of K r) r.ymin).1 = []
    rw [htn]
    rfl
  · show (split_loop (num_sub_works_of K r).toNat (split_height_of K r)
      (remaining_height_of K r) r.ymin).1 = []
    rw [htn]
    rfl
  · show decide ((0 : Int) < num_sub_works_of K r) = false
    rw [decide_eq_false_iff_not]
    omega

theorem execute_work_negative_height_witness :
    (execute_work false 1 (BLI_rcti_init 0 5 9 2)).num_sub_works < 0 ∧
    (execute_work false 1 (BLI_rcti_init 0 5 9 2)).sub_works = [] ∧
    (execute_work false 1 (BLI_rcti_init 0 5 9 2)).scheduled = [] ∧
    reaches_cond_wait (execute_work false 1 (BLI_rcti_init 0 5 9 2)) 0 = false :=
  execute_work_negative_height 1 (by decide) (BLI_rcti_init 0 5 9 2) (by decide)

end BlenderCompositor
